/-
Verification of the power-outage-data scrapers.

This file gives a shallow embedding, in Lean 4, of the algorithmic core of
the repository:

* `kubra_scraper.py` — the recursive quadtree incident resolver
  (`KubraScraper._fetch_data`, `fetch_data`, `_get_outage_info`,
  `_get_quadkey_url`);
* `base_scraper.py` — the versioned content client (`GithubContents.write`,
  `GithubContents.write_large`), the orchestrator
  (`Scraper.scrape_and_store`) and the delta reporter
  (`DeltaScraper.update_message`, `DeltaScraper.display_changes`).

External libraries used by the Python code (`requests`, `mercantile`,
`polyline`) and the remote HTTP services are modelled as explicit
environment records: an environment field stands for the observable
behaviour of one external call.  Everything coming from the repository's own
code is translated statement by statement.
-/
import Mathlib

namespace PowerOutage

/-! ## Kubra resolver: data model

A tile document (`res.json()["file_data"]`) is a list of entries; each entry
carries a `desc` object and a `geom` object, exactly the fields that
`_fetch_data` and `_get_outage_info` read. -/

/-- `desc["cause"]` is either null or an object with an `"EN-US"` entry. -/
structure Cause where
  enUS : String
  deriving DecidableEq, Repr

/-- `desc["cust_a"]` is an object with a `"val"` entry. -/
structure CustA where
  val : Int
  deriving DecidableEq, Repr

/-- The `desc` object of one `file_data` entry, with the fields read by
`KubraScraper._fetch_data` / `_get_outage_info`.  `incId` is `Option String`
so that both a JSON null and a present string are representable; Python
truthiness of `desc["inc_id"]` is `incIdTruthy`. -/
structure Desc where
  cluster : Bool
  incId : Option String
  etr : Option String
  etrConfidence : Option String
  comments : Option String
  cause : Option Cause
  nOut : Int
  custA : CustA
  crewStatus : Option String
  startTime : String
  deriving DecidableEq, Repr

/-- Python truthiness of `desc["inc_id"]`: `None` and `""` are falsy. -/
def Desc.incIdTruthy (d : Desc) : Bool :=
  match d.incId with
  | none => false
  | some s => s ≠ ""

/-- The `geom` object: `geom["p"]` is a list of polyline-encoded points. -/
structure Geom where
  p : List String
  deriving DecidableEq, Repr

/-- One entry of a tile document's `file_data` list. -/
structure Entry where
  desc : Desc
  geom : Geom
  deriving DecidableEq, Repr

/-- `entry["geom"]["p"][0]`; the vendor always sends at least one point
(Python would raise `IndexError` otherwise). -/
def Entry.pFirst (e : Entry) : String :=
  e.geom.p.headD ""

/-- The record built by `KubraScraper._get_outage_info`.  `latitude` /
`longitude` come from `polyline.decode(...)[0]`, modelled by the abstract
`decodePoint` of the environment. -/
structure OutageInfo where
  id : String
  etr : Option String
  etrConfidence : Option String
  cluster : Bool
  comments : Option String
  cause : Option String
  numberOut : Int
  custAffected : Int
  crewStatus : Option String
  startTime : String
  latitude : Int
  longitude : Int
  source : String
  deriving DecidableEq, Repr

/-- `MIN_ZOOM` from `kubra_scraper.py`. -/
def MIN_ZOOM : Nat := 7

/-- `MAX_ZOOM` from `kubra_scraper.py`. -/
def MAX_ZOOM : Nat := 14

/-- The environment of one resolution pass: the instance configuration
discovered in `KubraScraper.__init__`, the vendor HTTP surface, and the two
external geometry libraries (`mercantile`, `polyline`).

* `fetch u = none` models `not res.ok` (tile absent); `fetch u = some es`
  models a 200 response whose `file_data` is `es`.
* `neighbors` models `_get_neighboring_quadkeys` (mercantile arithmetic).
* `quadkeyForPoint` models `_get_quadkey_for_point` (polyline + mercantile).
* `decodePoint` models `polyline.decode(point)[0]`.
* `serviceQuadkeys` models `_get_service_area_quadkeys()`.
* `expectedTotal` models
  `data["summaryFileData"]["totals"][0]["total_outages"]`.
* `maxZoom` is `MAX_ZOOM` in the deployed code; it is kept as a field so the
  theorems hold for every zoom ceiling. -/
structure KubraEnv where
  baseUrl : String
  clusterDataPath : String
  layerName : String
  maxZoom : Nat
  fetch : String → Option (List Entry)
  neighbors : String → List String
  quadkeyForPoint : String → Nat → String
  decodePoint : String → Int × Int
  serviceQuadkeys : List String
  expectedTotal : Int

/-- `"\x7b"` and `"\x7d"` as characters, for the `\x7bqkh\x7d` placeholder of
`cluster_data_path`. -/
def lbraceChar : Char := Char.ofNat 123

def rbraceChar : Char := Char.ofNat 125

/-- `cluster_data_path.format(qkh=...)`: replace each occurrence of the
five-character placeholder (left brace, `q`, `k`, `h`, right brace) by
`qkh`.  Structural on the character list. -/
def substQkh (qkh : List Char) : List Char → List Char
  | a :: b :: c :: d :: e :: rest =>
    if a = lbraceChar ∧ b = 'q' ∧ c = 'k' ∧ d = 'h' ∧ e = rbraceChar then
      qkh ++ substQkh qkh rest
    else
      a :: substQkh qkh (b :: c :: d :: e :: rest)
  | l => l

/-- `quadkey[-3:][::-1]` — the last three characters of the quadkey,
reversed. -/
def qkhOf (q : String) : List Char :=
  (q.data.reverse).take 3

/-- `KubraScraper._get_quadkey_url`:
`f"{self.base_url}{data_path}/public/{self.layer_name}/{quadkey}.json"`
where `data_path = self.cluster_data_path.format(qkh=quadkey[-3:][::-1])`. -/
def quadkeyUrl (env : KubraEnv) (q : String) : String :=
  env.baseUrl ++ String.mk (substQkh (qkhOf q) env.clusterDataPath.data)
    ++ "/public/" ++ env.layerName ++ "/" ++ q ++ ".json"

/-- `KubraScraper._get_outage_info`, field by field. -/
def getOutageInfo (env : KubraEnv) (e : Entry) (url : String) : OutageInfo :=
  let d := e.desc
  let loc := env.decodePoint e.pFirst
  { id := if ¬ d.incIdTruthy then e.pFirst ++ "-" ++ d.startTime
          else d.incId.getD ""
    etr := d.etr
    etrConfidence := d.etrConfidence
    cluster := d.cluster
    comments := d.comments
    cause := (d.cause.map Cause.enUS)
    numberOut := d.nOut
    custAffected := d.custA.val
    crewStatus := d.crewStatus
    startTime := d.startTime
    latitude := loc.1
    longitude := loc.2
    source := url }

/-! ## Kubra resolver: the recursive walk

`_fetch_data` mutates a shared `already_seen` set and issues HTTP requests.
The embedding threads an explicit global state: the visited set plus a log
of every `(url, zoom)` actually fetched (`self._make_request` calls inside
`_fetch_data`), in order. -/

/-- Shared state of one resolution pass: the `already_seen` set (a Python
set of URLs, modelled as a duplicate-free list) and the fetch log (each
fetched URL together with the zoom it was fetched at). -/
structure GState where
  seen : List String
  log : List (String × Nat)
  deriving DecidableEq

/-- The result dictionary `outages`, as an insertion-ordered association
list: Python dict semantics. -/
abbrev OMap := List (String × OutageInfo)

/-- `outages[k] = v` on a Python dict: replace in place if the key exists,
otherwise append. -/
def omapInsert (m : OMap) (k : String) (v : OutageInfo) : OMap :=
  if m.any (fun p => p.1 = k) then
    m.map (fun p => if p.1 = k then (k, v) else p)
  else
    m ++ [(k, v)]

/-- `outages.update(sub)` on Python dicts. -/
def omapUpdate (m sub : OMap) : OMap :=
  sub.foldl (fun acc p => omapInsert acc p.1 p.2) m

/-- The inner `for o in res.json()["file_data"]` loop of `_fetch_data`.
`recur` is the recursive `self._fetch_data` call (one fuel level lower);
`q` and `url` are the quadkey and URL of the tile whose entries are being
walked, `zoom` the current zoom, `cs` the `cluster_search` flag of the
enclosing call (it only feeds the recursive calls' flag in the source). -/
def loopE (env : KubraEnv)
    (recur : List String → Nat → Bool → GState → Option (GState × OMap))
    (q url : String) :
    List Entry → Nat → Bool → GState → OMap → Option (GState × OMap)
  | [], _, _, st, acc => some (st, acc)
  | e :: es, zoom, cs, st, acc =>
    if e.desc.cluster then
      if zoom + 1 > env.maxZoom then
        -- at max zoom: record the synthesized outage
        let info := getOutageInfo env e url
        loopE env recur q url es zoom cs st (omapInsert acc info.id info)
      else
        -- zoom in on the cluster's representative point
        match recur [env.quadkeyForPoint e.pFirst (zoom + 1)] (zoom + 1) true st with
        | none => none
        | some (st', sub) =>
          loopE env recur q url es zoom cs st' (omapUpdate acc sub)
    else
      -- look for neighbors at the same zoom, then record the incident
      match recur (env.neighbors q) zoom false st with
      | none => none
      | some (st', sub) =>
        let acc' := omapUpdate acc sub
        let info := getOutageInfo env e url
        loopE env recur q url es zoom cs st' (omapInsert acc' info.id info)

/-- The outer `for q in quadkeys` loop of `_fetch_data`: skip visited URLs,
otherwise mark visited, fetch, and walk the entries. -/
def loopQ (env : KubraEnv)
    (recur : List String → Nat → Bool → GState → Option (GState × OMap)) :
    List String → Nat → Bool → GState → OMap → Option (GState × OMap)
  | [], _, _, st, acc => some (st, acc)
  | qk :: qs, zoom, cs, st, acc =>
    let url := quadkeyUrl env qk
    if url ∈ st.seen then
      loopQ env recur qs zoom cs st acc
    else
      let st' : GState := ⟨url :: st.seen, st.log ++ [(url, zoom)]⟩
      match env.fetch url with
      | none => loopQ env recur qs zoom cs st' acc
      | some entries =>
        match loopE env recur qk url entries zoom cs st' acc with
        | none => none
        | some (st'', acc') => loopQ env recur qs zoom cs st'' acc'

/-- `KubraScraper._fetch_data(quadkeys, already_seen, zoom, cluster_search)`.
The Python function is recursive with no explicit bound; the embedding
spends one unit of fuel per recursive call and returns `none` only on fuel
exhaustion (`fetchData_isSome_of_fuel` shows enough fuel always exists). -/
def fetchData (env : KubraEnv) :
    Nat → List String → Nat → Bool → GState → Option (GState × OMap)
  | 0, _, _, _, _ => none
  | fuel + 1, qs, zoom, cs, st =>
    loopQ env (fetchData env fuel) qs zoom cs st []

/-- `KubraScraper.fetch_data` (lines 56–70): read the vendor summary total,
enumerate the service-area quadkeys, run the walk from an empty visited set,
sum `numberOut`, and fail on a mismatch.  The outer `Option` is fuel
exhaustion (never reached with enough fuel); `Except.error` models the
`raise Exception(...)` on a total mismatch. -/
def fetchDataTop (env : KubraEnv) (fuel : Nat) :
    Option (Except String (List OutageInfo)) :=
  match fetchData env fuel env.serviceQuadkeys MIN_ZOOM false ⟨∅, []⟩ with
  | none => none
  | some (_, m) =>
    if ((m.map Prod.snd).map OutageInfo.numberOut).sum ≠ env.expectedTotal then
      some (Except.error "Outages found does not match expected outages")
    else
      some (Except.ok (m.map Prod.snd))

/-! ## Concrete resolver instances

Small closed environments used to evaluate the definitions on concrete
inputs. -/

/-- A single resolvable (non-cluster) incident entry. -/
def entrySimple : Entry :=
  { desc := { cluster := false, incId := some "I1", etr := none,
              etrConfidence := none, comments := none, cause := none,
              nOut := 5, custA := ⟨5⟩, crewStatus := none, startTime := "T0" }
    geom := ⟨["pt0"]⟩ }

/-- One service-area quadkey, one incident, no neighbors. -/
def envSimple : KubraEnv :=
  { baseUrl := "https://kubra.io/"
    clusterDataPath := "dp"
    layerName := "L"
    maxZoom := 14
    fetch := fun u =>
      if u = "https://kubra.io/dp/public/L/0123.json" then some [entrySimple]
      else none
    neighbors := fun _ => []
    quadkeyForPoint := fun _ _ => "0123"
    decodePoint := fun _ => (1, 2)
    serviceQuadkeys := ["0123"]
    expectedTotal := 5 }

/-- The URL `envSimple` builds for quadkey `"0123"`. -/
def urlSimple : String := "https://kubra.io/dp/public/L/0123.json"

/-- The state and mapping produced by walking `envSimple` from scratch. -/
def fetchDataSimpleRes : GState × OMap :=
  (⟨[urlSimple], [(urlSimple, 7)]⟩,
    [("I1", getOutageInfo envSimple entrySimple urlSimple)])

/-- A cluster entry that carries a vendor incident id. -/
def entryClusterVendor : Entry :=
  { desc := { cluster := true, incId := some "VENDOR1", etr := none,
              etrConfidence := none, comments := none, cause := none,
              nOut := 3, custA := ⟨3⟩, crewStatus := none, startTime := "T5" }
    geom := ⟨["pt"]⟩ }

/-- An environment whose single tile holds `entryClusterVendor` and whose
zoom ceiling equals the starting zoom, making the cluster irreducible. -/
def envClusterVendor : KubraEnv :=
  { baseUrl := ""
    clusterDataPath := "d"
    layerName := "L"
    maxZoom := 7
    fetch := fun u =>
      if u = "d/public/L/Q.json" then some [entryClusterVendor] else none
    neighbors := fun _ => []
    quadkeyForPoint := fun _ _ => "Q"
    decodePoint := fun _ => (0, 0)
    serviceQuadkeys := ["Q"]
    expectedTotal := 3 }

/-! ## Versioned content client (`GithubContents`)

The remote git object store is modelled explicitly (`Store`); the direct
contents-API endpoints of `read` and `write` are modelled as response
oracles in `WriteEnv`, because no claim depends on the server-side effect of
a successful direct PUT.  Content bytes are modelled as `String` (the
`isinstance(content_bytes, bytes)` precondition is outside the claims);
base64 transport encoding is dropped because encode/decode are inverse
external functions. -/

/-- The fields of an HTTP response that `GithubContents.write` reads:
`response.status_code`, `response.json()["errors"][0]["code"]`,
`response.json().get("message", "")`, the two shas of a success body, and
`response.content` (for the `UnknownError` message). -/
structure Resp where
  status : Nat
  firstErrorCode : Option String
  message : String
  contentSha : String
  commitSha : String
  body : String
  deriving DecidableEq, Repr

/-- The exception taxonomy of `GithubContents`. -/
inductive GhError
  | notFound (path : String)
  | unknown (body : String)
  deriving DecidableEq, Repr

/-- A commit object of the remote store. -/
structure GCommit where
  tree : String
  parents : List String
  message : String
  deriving DecidableEq, Repr

/-- The remote git object store: refs (branch → commit sha), commits, trees
(tree sha → list of (path, blob sha) entries) and blobs, plus a fresh-sha
counter. -/
structure Store where
  refs : List (String × String)
  commits : List (String × GCommit)
  trees : List (String × List (String × String))
  blobs : List (String × String)
  nextId : Nat
  deriving DecidableEq, Repr

/-- Server-generated object names. -/
def freshSha (n : Nat) : String := "sha" ++ toString n

/-- `POST /git/blobs`: store the content, answer with the new blob's sha. -/
def Store.postBlob (st : Store) (content : String) : Store × String :=
  let sha := freshSha st.nextId
  ({ st with blobs := st.blobs ++ [(sha, content)], nextId := st.nextId + 1 },
    sha)

/-- `GET /git/trees/{branch}?recursive=1`, git semantics: the branch name
resolves to the branch's head commit, and the response describes that
commit's TREE — the top-level `"sha"` of the response is the tree's sha, not
the commit's.  `none` models the KeyError crash when the branch or its
objects are missing. -/
def Store.getTreesSha (st : Store) (branch : String) : Option String := do
  let cid ← st.refs.lookup branch
  let c ← st.commits.lookup cid
  pure c.tree

/-- Replace or add one `(path, sha)` entry of a tree listing. -/
def upsertEntry (entries : List (String × String)) (path sha : String) :
    List (String × String) :=
  if entries.any (fun p => p.1 = path) then
    entries.map (fun p => if p.1 = path then (path, sha) else p)
  else
    entries ++ [(path, sha)]

/-- `POST /git/trees` with a `base_tree` and a single blob entry. -/
def Store.postTree (st : Store) (baseTree path blobSha : String) :
    Store × String :=
  let sha := freshSha st.nextId
  let base := (st.trees.lookup baseTree).getD []
  ({ st with trees := st.trees ++ [(sha, upsertEntry base path blobSha)],
             nextId := st.nextId + 1 }, sha)

/-- `POST /git/commits` with `message`, `parents`, `tree`.  The model is a
lenient store: it records whatever parents it is sent (the real service
validates that parents are commit shas). -/
def Store.postCommit (st : Store) (message : String) (parents : List String)
    (tree : String) : Store × String :=
  let sha := freshSha st.nextId
  ({ st with commits := st.commits ++ [(sha, ⟨tree, parents, message⟩)],
             nextId := st.nextId + 1 }, sha)

/-- `PATCH /git/refs/heads/{branch}`. -/
def Store.patchRef (st : Store) (branch sha : String) : Store :=
  { st with refs := upsertEntry st.refs branch sha }

/-- `GithubContents.write_large` (lines 106–156): create a blob; read the
tree listing of the branch and keep its `"sha"` (`default_branch_sha` in the
source — under git semantics this is the HEAD COMMIT'S TREE sha); create a
tree against that base with the single `(filepath, blob)` entry; create a
commit whose `parents` is `[default_branch_sha]` and whose tree is the new
tree; move the branch ref to the new commit; return the blob sha and the
commit sha. -/
def writeLarge (st : Store) (branch filepath content message : String) :
    Option (Store × String × String) :=
  let blobRes := st.postBlob content
  match blobRes.1.getTreesSha branch with
  | none => none
  | some defaultBranchSha =>
    let treeRes := blobRes.1.postTree defaultBranchSha filepath blobRes.2
    let commitRes := treeRes.1.postCommit message [defaultBranchSha] treeRes.2
    let st' := commitRes.1.patchRef branch commitRes.2
    some (st', blobRes.2, commitRes.2)

/-- `"sha" in message` — Python substring test, structural scan. -/
def hasShaChars : List Char → Bool
  | 's' :: 'h' :: 'a' :: _ => true
  | _ :: rest => hasShaChars rest
  | [] => false

def hasSha (s : String) : Bool := hasShaChars s.data

/-- The client-side inputs of one `GithubContents.write` call: the branch
and path, the content and commit message, the direct PUT endpoint as a
response oracle keyed by the `sha` payload field, and the outcome of
`self.read(filepath)` used by the retry branch. -/
structure WriteEnv where
  branch : String
  filepath : String
  content : String
  message : String
  put : Option String → Resp
  readResult : Except GhError (String × String)

/-- What a `write` call produces: either the pair of shas (and the store,
changed only on the `write_large` path), or a raised exception. -/
inductive WriteRes
  | ok (store : Store) (contentSha commitSha : String)
  | failure (e : GhError)
  deriving DecidableEq, Repr

/-- The body of `GithubContents.write` (lines 62–104): issue the direct
PUT; on 403/too_large switch to `write_large`; on 422-mentioning-"sha" with
no sha supplied, read the current sha and retry (`retry` is the recursive
self-call, applied to the freshly read sha); on 200/201 return the two
shas; otherwise raise `UnknownError` carrying status and body.  `log`
accumulates the sequence of `sha` payloads sent to the PUT endpoint. -/
def writeStep (env : WriteEnv) (store : Store) (sha : Option String)
    (log : List (Option String))
    (retry : String → List (Option String) → WriteRes × List (Option String)) :
    WriteRes × List (Option String) :=
  let resp := env.put sha
  let log' := log ++ [sha]
  if resp.status = 403 ∧ resp.firstErrorCode = some "too_large" then
    match writeLarge store env.branch env.filepath env.content env.message with
    | none => (WriteRes.failure (GhError.unknown "missing branch"), log')
    | some (st', blobSha, commitSha) => (WriteRes.ok st' blobSha commitSha, log')
  else if sha = none ∧ resp.status = 422 ∧ hasSha resp.message then
    match env.readResult with
    | Except.ok (_, oldSha) => retry oldSha log'
    | Except.error e => (WriteRes.failure e, log')
  else if resp.status = 201 ∨ resp.status = 200 then
    (WriteRes.ok store resp.contentSha resp.commitSha, log')
  else
    (WriteRes.failure (GhError.unknown
      (toString resp.status ++ ":" ++ resp.body)), log')

/-- `GithubContents.write` with an explicit recursion bound: the only
recursive call is the missing-sha retry, which requires `sha is None` and
recurses with a concrete sha, so a bound of 2 is never exhausted (see
`writeFuel_log_length`). -/
def writeFuel (env : WriteEnv) (store : Store) :
    Nat → Option String → List (Option String) → WriteRes × List (Option String)
  | 0, _, log => (WriteRes.failure (GhError.unknown "recursion limit"), log)
  | fuel + 1, sha, log =>
    writeStep env store sha log (fun oldSha log' =>
      writeFuel env store fuel (some oldSha) log')

/-- `GithubContents.write` as called by clients. -/
def ghWrite (env : WriteEnv) (store : Store) (sha : Option String) :
    WriteRes × List (Option String) :=
  writeFuel env store 2 sha []

/-- A store whose branch `main` points at commit `c0` with tree `t0`:
the head commit's sha and its tree's sha are distinct, as in any real git
repository. -/
def exStore : Store :=
  { refs := [("main", "c0")]
    commits := [("c0", ⟨"t0", [], "init"⟩)]
    trees := [("t0", [("old.txt", "b0")])]
    blobs := [("b0", "x")]
    nextId := 0 }

/-- A direct endpoint that always answers "sha required/mismatched". -/
def envRetry : WriteEnv :=
  { branch := "main"
    filepath := "f.json"
    content := "data"
    message := "msg"
    put := fun sha =>
      match sha with
      | none => { status := 422, firstErrorCode := none,
                  message := "Invalid request. sha wasn't supplied.",
                  contentSha := "", commitSha := "", body := "B0" }
      | some _ => { status := 422, firstErrorCode := none,
                    message := "f.json does not match sha",
                    contentSha := "", commitSha := "", body := "B1" }
    readResult := Except.ok ("old-content", "S1") }

/-- The store produced by `writeLarge exStore "main" "f.json" "data" "msg"`:
blob `sha0` holds the content, tree `sha1` adds the path to the base tree,
commit `sha2` points at tree `sha1` — and its parents list is `["t0"]`, the
TREE sha the trees endpoint answered, not the head commit `c0`. -/
def exStoreAfter : Store :=
  { refs := [("main", "sha2")]
    commits := [("c0", ⟨"t0", [], "init"⟩), ("sha2", ⟨"sha1", ["t0"], "msg"⟩)]
    trees := [("t0", [("old.txt", "b0")]),
              ("sha1", [("old.txt", "b0"), ("f.json", "sha0")])]
    blobs := [("b0", "x"), ("sha0", "data")]
    nextId := 3 }

/-! ## Scrape-store orchestrator (`Scraper.scrape_and_store`)

The snapshot type is an abstract `D` with decidable equality: the Python
comparison `self.last_data == data` is structural equality on the parsed
JSON.  The content client and the fetch strategy are oracles. -/

/-- Inputs of one pass: the outcome of `github.read(self.filepath)` (already
parsed), the outcome of `self.fetch_data()` (`none` is Python `None`),
Python truthiness of a parsed snapshot, the two mode flags, the two message
builders (overridable methods), and the outcome `github.write` would
produce. -/
structure ScrapeEnv (D : Type) where
  readResult : Except GhError (D × String)
  fetchResult : Option D
  isTruthy : D → Bool
  testMode : Bool
  hasToken : Bool
  updateMsg : Option D → D → String
  createMsg : D → String
  writeResult : Except GhError (String × String)

/-- The orchestrator's run-scoped state (`self.last_data`, `self.last_sha`). -/
structure ScrState (D : Type) where
  lastData : Option D
  lastSha : Option String

/-- Python truthiness of `self.last_data`. -/
def optTruthy {D : Type} (env : ScrapeEnv D) : Option D → Bool
  | none => false
  | some d => env.isTruthy d

/-- Python truthiness of `self.last_sha` (a string: `""` is falsy). -/
def shaTruthy : Option String → Bool
  | none => false
  | some s => s ≠ ""

/-- The `if not self.last_data or not self.last_sha` block of
`scrape_and_store` (lines 192–200): reload the stored snapshot, absorbing
only `NotFound`. -/
def loadPrior {D : Type} (env : ScrapeEnv D) (st : ScrState D) :
    Except GhError (ScrState D) :=
  if ¬ optTruthy env st.lastData ∨ ¬ shaTruthy st.lastSha then
    match env.readResult with
    | Except.ok (d, sha) => Except.ok ⟨some d, some sha⟩
    | Except.error (GhError.notFound _) => Except.ok ⟨none, none⟩
    | Except.error e => Except.error e
  else
    Except.ok st

/-- `self.last_data == data` where `last_data` may be `None`. -/
def snapshotEq {D : Type} [DecidableEq D] : Option D → D → Bool
  | some d, data => d = data
  | none, _ => false

/-- One call of `github.write` as issued by the orchestrator. -/
structure WriteCall (D : Type) where
  data : D
  sha : Option String
  message : String

/-- `Scraper.scrape_and_store` (lines 189–238).  The second component of
the result is the list of `github.write` calls performed during the pass. -/
def scrapeAndStore {D : Type} [DecidableEq D] (env : ScrapeEnv D)
    (st : ScrState D) : Except GhError (ScrState D × List (WriteCall D)) :=
  match loadPrior env st with
  | Except.error e => Except.error e
  | Except.ok st1 =>
    match env.fetchResult with
    | none => Except.ok (st1, [])
    | some data =>
      if env.testMode ∧ ¬ env.hasToken then Except.ok (st1, [])
      else if snapshotEq st1.lastData data then Except.ok (st1, [])
      else
        let message :=
          if shaTruthy st1.lastSha then env.updateMsg st1.lastData data
          else env.createMsg data
        if env.testMode then Except.ok (st1, [])
        else
          match env.writeResult with
          | Except.error e => Except.error e
          | Except.ok (contentSha, _) =>
            Except.ok (⟨some data, some contentSha⟩,
              [⟨data, st1.lastSha, message⟩])

/-- A concrete orchestrator input whose fetch strategy returns the `None`
sentinel. -/
def envScrapeNone : ScrapeEnv Nat :=
  { readResult := Except.ok (7, "S0")
    fetchResult := none
    isTruthy := fun _ => true
    testMode := false
    hasToken := true
    updateMsg := fun _ _ => "upd"
    createMsg := fun _ => "crt"
    writeResult := Except.ok ("S1", "C1") }

/-- A concrete orchestrator input whose fetched snapshot equals the stored
one. -/
def envScrapeSame : ScrapeEnv Nat :=
  { envScrapeNone with fetchResult := some 7 }

/-! ## Delta reporter (`DeltaScraper`)

Records are insertion-ordered association lists of scalar JSON values;
`json.dumps(r, sort_keys=True)` equality is equality of the key-sorted pair
list. -/

/-- Scalar JSON values appearing in the records. -/
inductive JVal
  | s (v : String)
  | n (v : Int)
  | b (v : Bool)
  | null
  deriving DecidableEq, Repr

/-- A record (a parsed JSON object, insertion-ordered). -/
abbrev DRec := List (String × JVal)

/-- Python `str()` of a scalar, as interpolated by `"{} = {}".format`. -/
def jstr : JVal → String
  | JVal.s v => v
  | JVal.n v => toString v
  | JVal.b true => "True"
  | JVal.b false => "False"
  | JVal.null => "None"

/-- Lexicographic code-point order on character lists: the string order
`json.dumps(..., sort_keys=True)` sorts keys by. -/
def charListLt : List Char → List Char → Bool
  | [], [] => false
  | [], _ :: _ => true
  | _ :: _, [] => false
  | a :: as, b :: bs =>
    if a.toNat < b.toNat then true
    else if b.toNat < a.toNat then false
    else charListLt as bs

/-- Lexicographic order on strings. -/
def strLt (a b : String) : Bool := charListLt a.data b.data

/-- Insert a field into a key-sorted field list. -/
def insertByKey (p : String × JVal) : DRec → DRec
  | [] => [p]
  | q :: rest =>
    if strLt q.1 p.1 then q :: insertByKey p rest else p :: q :: rest

/-- Sort a record's fields by key: the backbone of
`json.dumps(record, sort_keys=True)`; two records without duplicate keys
serialize equally iff their key-sorted field lists are equal. -/
def sortByKey : DRec → DRec
  | [] => []
  | p :: rest => insertByKey p (sortByKey rest)

/-- `json.dumps(a, sort_keys=True) == json.dumps(b, sort_keys=True)`. -/
def dumpsEq (a b : DRec) : Bool := decide (sortByKey a = sortByKey b)

/-- `record[self.record_key]` (key absent modelled as null; a well-formed
record always carries its key). -/
def keyOf (k : String) (r : DRec) : JVal := (r.lookup k).getD JVal.null

/-- `previous_ids = [record[self.record_key] for record in old_records]`. -/
def previousIds (k : String) (old : List DRec) : List JVal := old.map (keyOf k)

/-- `current_ids = [record[self.record_key] for record in new_records]`. -/
def currentIds (k : String) (new : List DRec) : List JVal := new.map (keyOf k)

/-- `added_ids = [id for id in current_ids if id not in previous_ids]`. -/
def addedIds (k : String) (old new : List DRec) : List JVal :=
  (currentIds k new).filter (fun i => decide (i ∉ previousIds k old))

/-- `removed_ids = [id for id in previous_ids if id not in current_ids]`. -/
def removedIds (k : String) (old new : List DRec) : List JVal :=
  (previousIds k old).filter (fun i => decide (i ∉ currentIds k new))

/-- `[r for r in records if r[self.record_key] == id][0]` — the first
record carrying the id (never absent when the id came from `records`). -/
def firstWithKey (k : String) (records : List DRec) (i : JVal) : Option DRec :=
  records.find? (fun r => decide (keyOf k r = i))

/-- The records rendered in the `added` block, in `added_ids` order. -/
def addedRecords (k : String) (old new : List DRec) : List DRec :=
  (addedIds k old new).filterMap (firstWithKey k new)

/-- The records rendered in the `removed` block, in `removed_ids` order. -/
def removedRecords (k : String) (old new : List DRec) : List DRec :=
  (removedIds k old new).filterMap (firstWithKey k old)

/-- `changed_records` (lines 307–314): for each new record, the first old
record with the same key, kept as an `(old, new)` pair when the sorted
serializations differ; records without an old partner are skipped
(`IndexError` → `continue`). -/
def changedRecords (k : String) (old new : List DRec) : List (DRec × DRec) :=
  new.filterMap (fun nr =>
    match old.find? (fun r => decide (keyOf k r = keyOf k nr)) with
    | none => none
    | some orec => if dumpsEq orec nr then none else some (orec, nr))

/-- Modelled from the spec (§4.3): `added` = records in `newRecords` whose
key is absent from `oldRecords`, in `newRecords` order. -/
def addedSpec (k : String) (old new : List DRec) : List DRec :=
  new.filter (fun r => decide (keyOf k r ∉ previousIds k old))

/-- Modelled from the spec (§4.3): `removed` = records in `oldRecords`
whose key is absent from `newRecords`, in `oldRecords` order. -/
def removedSpec (k : String) (old new : List DRec) : List DRec :=
  old.filter (fun r => decide (keyOf k r ∉ currentIds k new))

/-- `DeltaScraper.display_changes` (lines 269–276) as structured triples:
iterate the OLD record's keys; `next = new_record.get(key)` (absent →
`None`); keep `(key, prev, next)` when `prev != next`. -/
def changedFieldTriples (old new : DRec) : List (String × JVal × JVal) :=
  old.filterMap (fun p =>
    if p.2 = (new.lookup p.1).getD JVal.null then none
    else some (p.1, p.2, (new.lookup p.1).getD JVal.null))

/-- `sep.join(parts)`. -/
def joinSep (sep : String) : List String → String
  | [] => ""
  | [x] => x
  | x :: xs => x ++ sep ++ joinSep sep xs

/-- `DeltaScraper.display_changes` rendered: `"{}: {} => {}"` lines. -/
def displayChanges (old new : DRec) : String :=
  joinSep "\n" ((changedFieldTriples old new).map
    (fun t => t.1 ++ ": " ++ jstr t.2.1 ++ " => " ++ jstr t.2.2))

/-- `DeltaScraper.display_record` default: `"{} = {}"` lines. -/
def displayRecord (r : DRec) : String :=
  joinSep "\n" (r.map (fun p => p.1 ++ " = " ++ jstr p.2))

/-- The class-attribute configuration of a `DeltaScraper` subtype, plus the
overridable `display_record` method. -/
structure DeltaCfg where
  recordKey : String
  showChanges : Bool
  noun : String
  plural : Option String
  sourceUrl : Option String
  displayName : String
  displayRec : DRec → String

/-- `noun_plural`. -/
def DeltaCfg.nounPlural (cfg : DeltaCfg) : String :=
  cfg.plural.getD (cfg.noun ++ "s")

/-- `self.noun if count == 1 else self.noun_plural`. -/
def nounForCount (cfg : DeltaCfg) (cnt : Nat) : String :=
  if cnt = 1 then cfg.noun else cfg.nounPlural

/-- The `added` message block (lines 288–294). -/
def addedBlock (cfg : DeltaCfg) (old new : List DRec) : List String :=
  (toString (addedIds cfg.recordKey old new).length ++ " new "
      ++ nounForCount cfg (addedIds cfg.recordKey old new).length ++ ":")
    :: (addedRecords cfg.recordKey old new).map cfg.displayRec

/-- The `removed` message block (lines 296–304). -/
def removedBlock (cfg : DeltaCfg) (old new : List DRec) : List String :=
  (toString (removedIds cfg.recordKey old new).length ++ " "
      ++ nounForCount cfg (removedIds cfg.recordKey old new).length
      ++ " removed:")
    :: (removedRecords cfg.recordKey old new).map cfg.displayRec

/-- The `changed` message block (lines 316–323): its header interpolates
`len(removed_ids)` — both the count and the noun/plural choice. -/
def changedBlock (cfg : DeltaCfg) (removedCount : Nat)
    (changed : List (DRec × DRec)) : List String :=
  (toString removedCount ++ " " ++ nounForCount cfg removedCount
      ++ " changed:")
    :: changed.map (fun pq => displayChanges pq.1 pq.2)

/-- `message_blocks` as assembled by `update_message`. -/
def messageBlocks (cfg : DeltaCfg) (old new : List DRec) :
    List (List String) :=
  (if addedIds cfg.recordKey old new ≠ [] then [addedBlock cfg old new]
   else [])
  ++ (if removedIds cfg.recordKey old new ≠ [] then [removedBlock cfg old new]
      else [])
  ++ (if cfg.showChanges ∧ changedRecords cfg.recordKey old new ≠ [] then
        [changedBlock cfg (removedIds cfg.recordKey old new).length
          (changedRecords cfg.recordKey old new)]
      else [])

/-- Python `str.strip()`. -/
def pyStrip (s : String) : String :=
  String.mk
    (((s.data.dropWhile Char.isWhitespace).reverse.dropWhile
      Char.isWhitespace).reverse)

/-- The `summary` list (lines 335–343); the `changed` part does not depend
on `show_changes`. -/
def summaryParts (cfg : DeltaCfg) (old new : List DRec) : List String :=
  (if addedIds cfg.recordKey old new ≠ [] then
    [toString (addedIds cfg.recordKey old new).length ++ " "
      ++ nounForCount cfg (addedIds cfg.recordKey old new).length ++ " added"]
   else [])
  ++ (if removedIds cfg.recordKey old new ≠ [] then
        [toString (removedIds cfg.recordKey old new).length ++ " "
          ++ nounForCount cfg (removedIds cfg.recordKey old new).length
          ++ " removed"]
      else [])
  ++ (if changedRecords cfg.recordKey old new ≠ [] then
        [toString (changedRecords cfg.recordKey old new).length ++ " "
          ++ nounForCount cfg (changedRecords cfg.recordKey old new).length
          ++ " changed"]
      else [])

/-- `DeltaScraper.update_message` (lines 281–348), rendered. -/
def updateMessage (cfg : DeltaCfg) (old new : List DRec) (verb : String) :
    String :=
  let blocks := (messageBlocks cfg old new).map
    (fun b => pyStrip (joinSep "\n" b))
  let blocks := blocks ++
    (match cfg.sourceUrl with
     | some u => ["Detected on " ++ u]
     | none => [])
  let body := joinSep "\n\n" blocks
  let summary := summaryParts cfg old new
  let summaryText :=
    if summary ≠ [] then cfg.displayName ++ ": " ++ joinSep ", " summary
    else verb ++ " " ++ cfg.displayName
  summaryText ++ "\n\n" ++ body

/-- The prior record of the spec's §8 scenario. -/
def recWind : DRec := [("id", JVal.n 1), ("cause", JVal.s "wind")]

/-- The same incident with a changed cause. -/
def recIce : DRec := [("id", JVal.n 1), ("cause", JVal.s "ice")]

/-- A fresh incident. -/
def recNew : DRec := [("id", JVal.n 2), ("cause", JVal.s "wind")]

/-- A delta configuration with change rendering enabled. -/
def cfgOutages : DeltaCfg :=
  { recordKey := "id"
    showChanges := true
    noun := "outage"
    plural := none
    sourceUrl := none
    displayName := "lge-ku"
    displayRec := displayRecord }

/-! ## Resolver invariants

`InvStep st st'` is the per-call contract of every piece of the walk: the
visited set only grows, and the log grows by a block of URLs that were
unvisited at entry and are visited on exit. -/

/-- State-evolution contract of one stretch of the walk. -/
def InvStep (st st' : GState) : Prop :=
  st.seen ⊆ st'.seen ∧
    ∃ t, st'.log = st.log ++ t ∧ (t.map Prod.fst).Nodup ∧
      ∀ p ∈ t, p.1 ∉ st.seen ∧ p.1 ∈ st'.seen

theorem InvStep.refl (st : GState) : InvStep st st :=
  ⟨List.Subset.refl _, [], by simp, by simp, by simp⟩

theorem InvStep.trans {st₁ st₂ st₃ : GState}
    (h₁ : InvStep st₁ st₂) (h₂ : InvStep st₂ st₃) : InvStep st₁ st₃ := by
  obtain ⟨hs₁, t₁, hl₁, hn₁, ht₁⟩ := h₁
  obtain ⟨hs₂, t₂, hl₂, hn₂, ht₂⟩ := h₂
  refine ⟨hs₁.trans hs₂, t₁ ++ t₂, by simp [hl₁, hl₂], ?_, ?_⟩
  · rw [List.map_append, List.nodup_append]
    refine ⟨hn₁, hn₂, ?_⟩
    intro a ha₁ ha₂
    obtain ⟨p, hp, hpa⟩ := List.mem_map.1 ha₁
    obtain ⟨p', hp', hpa'⟩ := List.mem_map.1 ha₂
    exact (ht₂ p' hp').1 (hpa' ▸ hpa ▸ (ht₁ p hp).2)
  · intro p hp
    rcases List.mem_append.1 hp with h | h
    · exact ⟨(ht₁ p h).1, hs₂ (ht₁ p h).2⟩
    · exact ⟨fun hc => (ht₂ p h).1 (hs₁ hc), (ht₂ p h).2⟩

/-- One fetched URL: the basic `InvStep` block. -/
theorem InvStep.fetchOne {st : GState} {url : String} {zoom : Nat}
    (h : url ∉ st.seen) :
    InvStep st ⟨url :: st.seen, st.log ++ [(url, zoom)]⟩ := by
  refine ⟨List.subset_cons_self _ _, [(url, zoom)], rfl, by simp, ?_⟩
  intro p hp
  simp only [List.mem_singleton] at hp
  subst hp
  exact ⟨h, List.mem_cons_self _ _⟩

/-- Every entry-walk stretch respects the state contract, provided the
recursive call does. -/
theorem loopE_inv (env : KubraEnv)
    (recur : List String → Nat → Bool → GState → Option (GState × OMap))
    (hrec : ∀ qs zoom cs st res, recur qs zoom cs st = some res → InvStep st res.1)
    (q url : String) :
    ∀ es zoom cs st acc res,
      loopE env recur q url es zoom cs st acc = some res → InvStep st res.1 := by
  intro es
  induction es with
  | nil =>
    intro zoom cs st acc res h
    simp only [loopE, Option.some.injEq] at h
    exact h ▸ InvStep.refl st
  | cons e es ih =>
    intro zoom cs st acc res h
    simp only [loopE] at h
    split at h
    · split at h
      · exact ih _ _ _ _ _ h
      · split at h
        · exact Option.noConfusion h
        · rename_i st' sub heq
          exact (hrec _ _ _ _ _ heq).trans (ih _ _ _ _ _ h)
    · split at h
      · exact Option.noConfusion h
      · rename_i st' sub heq
        exact (hrec _ _ _ _ _ heq).trans (ih _ _ _ _ _ h)

/-- Every quadkey-walk stretch respects the state contract, provided the
recursive call does. -/
theorem loopQ_inv (env : KubraEnv)
    (recur : List String → Nat → Bool → GState → Option (GState × OMap))
    (hrec : ∀ qs zoom cs st res, recur qs zoom cs st = some res → InvStep st res.1) :
    ∀ qs zoom cs st acc res,
      loopQ env recur qs zoom cs st acc = some res → InvStep st res.1 := by
  intro qs
  induction qs with
  | nil =>
    intro zoom cs st acc res h
    simp only [loopQ, Option.some.injEq] at h
    exact h ▸ InvStep.refl st
  | cons qk qs ih =>
    intro zoom cs st acc res h
    simp only [loopQ] at h
    split at h
    · exact ih _ _ _ _ _ h
    · rename_i hvis
      split at h
      · exact (InvStep.fetchOne hvis).trans (ih _ _ _ _ _ h)
      · rename_i entries heq
        split at h
        · exact Option.noConfusion h
        · rename_i st'' acc' heq2
          exact ((InvStep.fetchOne hvis).trans
            (loopE_inv env recur hrec qk _ _ _ _ _ _ _ heq2)).trans
            (ih _ _ _ _ _ h)

/-- The full walk respects the state contract. -/
theorem fetchData_inv (env : KubraEnv) :
    ∀ fuel qs zoom cs st res,
      fetchData env fuel qs zoom cs st = some res → InvStep st res.1 := by
  intro fuel
  induction fuel with
  | zero =>
    intro qs zoom cs st res h
    simp only [fetchData] at h
    exact Option.noConfusion h
  | succ fuel ih =>
    intro qs zoom cs st res h
    simp only [fetchData] at h
    exact loopQ_inv env (fetchData env fuel)
      (fun qs z c s r hh => ih qs z c s r hh) _ _ _ _ _ _ h

/-- C3: within one resolution pass (a single visited set threaded through
all recursive `_fetch_data` calls, fetch log starting empty), no tile URL is
fetched more than once, and every fetched URL ends up in the visited set
(it is added before the fetch; tiles whose URL is already in the set are
skipped without a fetch). -/
theorem fetchData_no_double_fetch (env : KubraEnv) (fuel : Nat)
    (qs : List String) (zoom : Nat) (cs : Bool) (seen0 : List String)
    (res : GState × OMap)
    (h : fetchData env fuel qs zoom cs ⟨seen0, []⟩ = some res) :
    (res.1.log.map Prod.fst).Nodup ∧ ∀ p ∈ res.1.log, p.1 ∈ res.1.seen := by
  obtain ⟨hsub, t, hlog, hnodup, ht⟩ := fetchData_inv env fuel qs zoom cs _ res h
  simp only [List.nil_append] at hlog
  refine ⟨hlog ▸ hnodup, ?_⟩
  intro p hp
  exact (ht p (hlog ▸ hp)).2

/-- Witness: `fetchData_no_double_fetch` applied to the concrete walk of
`envSimple`. -/
theorem fetchData_no_double_fetch_witness :
    (fetchDataSimpleRes.1.log.map Prod.fst).Nodup ∧
      ∀ p ∈ fetchDataSimpleRes.1.log, p.1 ∈ fetchDataSimpleRes.1.seen :=
  fetchData_no_double_fetch envSimple 2 ["0123"] MIN_ZOOM false []
    fetchDataSimpleRes (by decide)

/-- Growing the visited set can only shrink the unvisited remainder. -/
theorem card_sdiff_mono_of_subset {U : Finset String} {s s' : List String}
    (h : s ⊆ s') : (U \ s'.toFinset).card ≤ (U \ s.toFinset).card := by
  apply Finset.card_le_card
  apply Finset.sdiff_subset_sdiff (Finset.Subset.refl U)
  intro x hx
  rw [List.mem_toFinset] at hx ⊢
  exact h hx

/-- Visiting a fresh URL of the finite URL space strictly shrinks the
unvisited remainder. -/
theorem card_sdiff_cons_lt {U : Finset String} {seen : List String}
    {url : String} (hu : url ∈ U) (hv : url ∉ seen) :
    (U \ (url :: seen).toFinset).card < (U \ seen.toFinset).card := by
  have hsub : (U \ (url :: seen).toFinset) ⊆ (U \ seen.toFinset) := by
    apply Finset.sdiff_subset_sdiff (Finset.Subset.refl U)
    intro x hx
    rw [List.mem_toFinset] at hx ⊢
    exact List.mem_cons_of_mem _ hx
  apply Finset.card_lt_card
  rw [Finset.ssubset_iff_of_subset hsub]
  refine ⟨url, ?_, ?_⟩
  · rw [Finset.mem_sdiff, List.mem_toFinset]
    exact ⟨hu, hv⟩
  · rw [Finset.mem_sdiff, List.mem_toFinset]
    simp

/-- Enough fuel keeps the entry walk from exhausting, provided the recursive
call never exhausts with the same fuel. -/
theorem loopE_isSome (env : KubraEnv) (Quniv : Finset String)
    (hnb : ∀ q ∈ Quniv, ∀ q' ∈ env.neighbors q, q' ∈ Quniv)
    (hpt : ∀ p z, env.quadkeyForPoint p z ∈ Quniv)
    (fuel : Nat)
    (hrec : ∀ qs zoom cs st, (∀ x ∈ qs, x ∈ Quniv) →
      (Quniv.image (quadkeyUrl env) \ st.seen.toFinset).card + 1 ≤ fuel →
      (fetchData env fuel qs zoom cs st).isSome = true)
    (q url : String) (hq : q ∈ Quniv) :
    ∀ es zoom cs st acc,
      (Quniv.image (quadkeyUrl env) \ st.seen.toFinset).card + 1 ≤ fuel →
      (loopE env (fetchData env fuel) q url es zoom cs st acc).isSome = true := by
  intro es
  induction es with
  | nil =>
    intro zoom cs st acc hb
    simp [loopE]
  | cons e es ih =>
    intro zoom cs st acc hb
    simp only [loopE]
    split
    · split
      · exact ih _ _ _ _ hb
      · split
        · rename_i heq
          have hs := hrec [env.quadkeyForPoint e.pFirst (zoom + 1)] (zoom + 1)
            true st (by
              intro x hx
              simp only [List.mem_singleton] at hx
              subst hx
              exact hpt _ _) hb
          rw [heq] at hs
          simp at hs
        · rename_i st' sub heq
          apply ih
          have hmono := (fetchData_inv env fuel _ _ _ _ _ heq).1
          exact le_trans (Nat.add_le_add_right (card_sdiff_mono_of_subset hmono) 1) hb
    · split
      · rename_i heq
        have hs := hrec (env.neighbors q) zoom false st
          (fun x hx => hnb q hq x hx) hb
        rw [heq] at hs
        simp at hs
      · rename_i st' sub heq
        apply ih
        have hmono := (fetchData_inv env fuel _ _ _ _ _ heq).1
        exact le_trans (Nat.add_le_add_right (card_sdiff_mono_of_subset hmono) 1) hb

/-- Enough fuel keeps the quadkey walk from exhausting. -/
theorem loopQ_isSome (env : KubraEnv) (Quniv : Finset String)
    (hnb : ∀ q ∈ Quniv, ∀ q' ∈ env.neighbors q, q' ∈ Quniv)
    (hpt : ∀ p z, env.quadkeyForPoint p z ∈ Quniv)
    (fuel : Nat)
    (hrec : ∀ qs zoom cs st, (∀ x ∈ qs, x ∈ Quniv) →
      (Quniv.image (quadkeyUrl env) \ st.seen.toFinset).card + 1 ≤ fuel →
      (fetchData env fuel qs zoom cs st).isSome = true) :
    ∀ qs, (∀ x ∈ qs, x ∈ Quniv) → ∀ zoom cs st acc,
      (Quniv.image (quadkeyUrl env) \ st.seen.toFinset).card ≤ fuel →
      (loopQ env (fetchData env fuel) qs zoom cs st acc).isSome = true := by
  intro qs
  induction qs with
  | nil =>
    intro hqs zoom cs st acc hb
    simp [loopQ]
  | cons qk qs ih =>
    intro hqs zoom cs st acc hb
    have hqk : qk ∈ Quniv := hqs qk (List.mem_cons_self _ _)
    have htail : ∀ x ∈ qs, x ∈ Quniv :=
      fun x hx => hqs x (List.mem_cons_of_mem _ hx)
    simp only [loopQ]
    split
    · exact ih htail _ _ _ _ hb
    · rename_i hvis
      have hu : quadkeyUrl env qk ∈ Quniv.image (quadkeyUrl env) :=
        Finset.mem_image_of_mem _ hqk
      have hlt := @card_sdiff_cons_lt (Quniv.image (quadkeyUrl env))
        st.seen (quadkeyUrl env qk) hu hvis
      split
      · exact ih htail _ _ _ _ (Nat.le_of_lt (lt_of_lt_of_le hlt hb))
      · rename_i entries hfetch
        split
        · rename_i heq
          have hs := loopE_isSome env Quniv hnb hpt fuel hrec qk
            (quadkeyUrl env qk) hqk entries zoom cs
            ⟨quadkeyUrl env qk :: st.seen, st.log ++ [(quadkeyUrl env qk, zoom)]⟩
            acc (Nat.succ_le_of_lt (lt_of_lt_of_le hlt hb))
          rw [heq] at hs
          simp at hs
        · rename_i st'' acc' heq
          apply ih htail
          have hmono := (loopE_inv env (fetchData env fuel)
            (fetchData_inv env fuel) qk _ _ _ _ _ _ _ heq).1
          refine le_trans (card_sdiff_mono_of_subset ?_)
            (Nat.le_of_lt (lt_of_lt_of_le hlt hb))
          exact fun x hx => hmono hx

/-- If the quadkey space is finite and closed under the walk's two ways of
producing new quadkeys, then fuel exceeding the number of unvisited URLs
never runs out: the walk terminates. -/
theorem fetchData_isSome_of_fuel (env : KubraEnv) (Quniv : Finset String)
    (hnb : ∀ q ∈ Quniv, ∀ q' ∈ env.neighbors q, q' ∈ Quniv)
    (hpt : ∀ p z, env.quadkeyForPoint p z ∈ Quniv) :
    ∀ fuel qs zoom cs st, (∀ x ∈ qs, x ∈ Quniv) →
      (Quniv.image (quadkeyUrl env) \ st.seen.toFinset).card + 1 ≤ fuel →
      (fetchData env fuel qs zoom cs st).isSome = true := by
  intro fuel
  induction fuel with
  | zero =>
    intro qs zoom cs st hqs hb
    exact absurd hb (Nat.not_succ_le_zero _)
  | succ fuel ih =>
    intro qs zoom cs st hqs hb
    simp only [fetchData]
    exact loopQ_isSome env Quniv hnb hpt fuel ih qs hqs zoom cs st []
      (Nat.lt_succ_iff.mp hb)

/-- Zoom window of the entry walk: every URL it fetches is fetched at a
zoom between the current zoom and the ceiling, provided the recursive call
behaves likewise. -/
theorem loopE_zoom (env : KubraEnv)
    (recur : List String → Nat → Bool → GState → Option (GState × OMap))
    (hrec : ∀ qs zoom cs st res, zoom ≤ env.maxZoom →
      recur qs zoom cs st = some res →
      ∀ p ∈ res.1.log, p ∈ st.log ∨ (zoom ≤ p.2 ∧ p.2 ≤ env.maxZoom))
    (q url : String) :
    ∀ es zoom cs st acc res, zoom ≤ env.maxZoom →
      loopE env recur q url es zoom cs st acc = some res →
      ∀ p ∈ res.1.log, p ∈ st.log ∨ (zoom ≤ p.2 ∧ p.2 ≤ env.maxZoom) := by
  intro es
  induction es with
  | nil =>
    intro zoom cs st acc res hz h
    simp only [loopE, Option.some.injEq] at h
    subst h
    exact fun p hp => Or.inl hp
  | cons e es ih =>
    intro zoom cs st acc res hz h
    simp only [loopE] at h
    split at h
    · split at h
      · exact ih _ _ _ _ _ hz h
      · rename_i hzoom
        split at h
        · exact Option.noConfusion h
        · rename_i st' sub heq
          intro p hp
          rcases ih _ _ _ _ _ hz h p hp with hmem | hbd
          · rcases hrec _ _ _ _ _ (Nat.not_lt.mp hzoom) heq p hmem with hmem' | hbd'
            · exact Or.inl hmem'
            · exact Or.inr ⟨le_trans (Nat.le_succ _) hbd'.1, hbd'.2⟩
          · exact Or.inr hbd
    · split at h
      · exact Option.noConfusion h
      · rename_i st' sub heq
        intro p hp
        rcases ih _ _ _ _ _ hz h p hp with hmem | hbd
        · rcases hrec _ _ _ _ _ hz heq p hmem with hmem' | hbd'
          · exact Or.inl hmem'
          · exact Or.inr hbd'
        · exact Or.inr hbd

/-- Zoom window of the quadkey walk. -/
theorem loopQ_zoom (env : KubraEnv)
    (recur : List String → Nat → Bool → GState → Option (GState × OMap))
    (hrec : ∀ qs zoom cs st res, zoom ≤ env.maxZoom →
      recur qs zoom cs st = some res →
      ∀ p ∈ res.1.log, p ∈ st.log ∨ (zoom ≤ p.2 ∧ p.2 ≤ env.maxZoom)) :
    ∀ qs zoom cs st acc res, zoom ≤ env.maxZoom →
      loopQ env recur qs zoom cs st acc = some res →
      ∀ p ∈ res.1.log, p ∈ st.log ∨ (zoom ≤ p.2 ∧ p.2 ≤ env.maxZoom) := by
  intro qs
  induction qs with
  | nil =>
    intro zoom cs st acc res hz h
    simp only [loopQ, Option.some.injEq] at h
    subst h
    exact fun p hp => Or.inl hp
  | cons qk qs ih =>
    intro zoom cs st acc res hz h
    simp only [loopQ] at h
    split at h
    · exact ih _ _ _ _ _ hz h
    · rename_i hvis
      have hstep : ∀ p : String × Nat,
          p ∈ st.log ++ [(quadkeyUrl env qk, zoom)] →
          p ∈ st.log ∨ (zoom ≤ p.2 ∧ p.2 ≤ env.maxZoom) := by
        intro p hp
        rcases List.mem_append.1 hp with hp | hp
        · exact Or.inl hp
        · simp only [List.mem_singleton] at hp
          subst hp
          exact Or.inr ⟨le_refl _, hz⟩
      split at h
      · intro p hp
        rcases ih _ _ _ _ _ hz h p hp with hmem | hbd
        · exact hstep p hmem
        · exact Or.inr hbd
      · rename_i entries hfetch
        split at h
        · exact Option.noConfusion h
        · rename_i st'' acc' heq
          intro p hp
          rcases ih _ _ _ _ _ hz h p hp with hmem | hbd
          · rcases loopE_zoom env recur hrec qk _ _ _ _ _ _ _ hz heq p hmem
              with hmem' | hbd'
            · exact hstep p hmem'
            · exact Or.inr hbd'
          · exact Or.inr hbd

/-- Zoom window of the full walk. -/
theorem fetchData_zoom (env : KubraEnv) :
    ∀ fuel qs zoom cs st res, zoom ≤ env.maxZoom →
      fetchData env fuel qs zoom cs st = some res →
      ∀ p ∈ res.1.log, p ∈ st.log ∨ (zoom ≤ p.2 ∧ p.2 ≤ env.maxZoom) := by
  intro fuel
  induction fuel with
  | zero =>
    intro qs zoom cs st res hz h
    simp only [fetchData] at h
    exact Option.noConfusion h
  | succ fuel ih =>
    intro qs zoom cs st res hz h
    simp only [fetchData] at h
    exact loopQ_zoom env (fetchData env fuel) ih _ _ _ _ _ _ hz h

/-- C9: for every resolver invocation over a finite quadkey space closed
under neighbor expansion and point lookup, the recursive walk terminates:
fuel exceeding the number of unvisited tile URLs is never exhausted (the
visited set grows on every fetch and the URL space is finite), and every
fetch of the walk happens at a zoom between the starting zoom and the
ceiling `maxZoom`, so recursion into finer zooms is bounded by
`maxZoom - minZoom` levels. -/
theorem fetchData_terminates (env : KubraEnv) (Quniv : Finset String)
    (fuel : Nat) (qs : List String) (zoom : Nat) (cs : Bool)
    (seen0 : List String)
    (hqs : ∀ x ∈ qs, x ∈ Quniv)
    (hnb : ∀ q ∈ Quniv, ∀ q' ∈ env.neighbors q, q' ∈ Quniv)
    (hpt : ∀ p z, env.quadkeyForPoint p z ∈ Quniv)
    (hfuel : (Quniv.image (quadkeyUrl env) \ seen0.toFinset).card + 1 ≤ fuel)
    (hz : zoom ≤ env.maxZoom) :
    (fetchData env fuel qs zoom cs ⟨seen0, []⟩).isSome = true ∧
      ∀ res, fetchData env fuel qs zoom cs ⟨seen0, []⟩ = some res →
        ∀ p ∈ res.1.log, zoom ≤ p.2 ∧ p.2 ≤ env.maxZoom := by
  constructor
  · exact fetchData_isSome_of_fuel env Quniv hnb hpt fuel qs zoom cs _ hqs hfuel
  · intro res h p hp
    rcases fetchData_zoom env fuel qs zoom cs _ res hz h p hp with hmem | hbd
    · exact absurd hmem (List.not_mem_nil p)
    · exact hbd

/-- Witness: the walk of `envSimple` over the one-tile quadkey space
`{"0123"}` terminates with fuel 2. -/
theorem fetchData_terminates_witness :
    (fetchData envSimple 2 ["0123"] MIN_ZOOM false ⟨[], []⟩).isSome = true ∧
      ∀ res, fetchData envSimple 2 ["0123"] MIN_ZOOM false ⟨[], []⟩ = some res →
        ∀ p ∈ res.1.log, MIN_ZOOM ≤ p.2 ∧ p.2 ≤ envSimple.maxZoom :=
  fetchData_terminates envSimple {"0123"} 2 ["0123"] MIN_ZOOM false []
    (by decide) (by decide) (fun p z => Finset.mem_singleton_self _)
    (by decide) (by decide)

/-- C2: whenever `fetch_data` returns a record list (instead of raising),
the `numberOut` values of the returned records sum exactly to the
vendor-reported total; a mismatching walk raises instead of returning an
incomplete result. -/
theorem fetchDataTop_sum (env : KubraEnv) (fuel : Nat)
    (recs : List OutageInfo)
    (h : fetchDataTop env fuel = some (Except.ok recs)) :
    (recs.map OutageInfo.numberOut).sum = env.expectedTotal := by
  unfold fetchDataTop at h
  split at h
  · exact Option.noConfusion h
  · split at h
    · simp at h
    · rename_i hcond
      simp only [Option.some.injEq, Except.ok.injEq] at h
      subst h
      exact not_not.mp hcond

/-- Witness: the walk of `envSimple` returns one record with
`numberOut = 5`, and the vendor total is 5. -/
theorem fetchDataTop_sum_witness :
    (([getOutageInfo envSimple entrySimple urlSimple]).map
      OutageInfo.numberOut).sum = envSimple.expectedTotal :=
  fetchDataTop_sum envSimple 2 [getOutageInfo envSimple entrySimple urlSimple]
    (by rfl)

/-- C4 counterexample: an irreducible cluster entry (`cluster = true`,
encountered at the zoom ceiling) that carries a vendor incident id is
recorded under that vendor id, not under `representativePoint + "-" +
startTime` — the claim's id derivation does not hold "regardless of its
other fields". -/
theorem maxZoom_cluster_id_counterexample :
    (fetchData envClusterVendor 2 ["Q"] 7 false ⟨[], []⟩).map Prod.snd =
      some [("VENDOR1",
        getOutageInfo envClusterVendor entryClusterVendor "d/public/L/Q.json")] ∧
    entryClusterVendor.desc.cluster = true ∧
    (getOutageInfo envClusterVendor entryClusterVendor
      "d/public/L/Q.json").id = "VENDOR1" ∧
    (getOutageInfo envClusterVendor entryClusterVendor
      "d/public/L/Q.json").id ≠
      entryClusterVendor.pFirst ++ "-" ++ entryClusterVendor.desc.startTime := by
  refine ⟨by decide, by decide, by decide, by decide⟩

/-- C4 (amended): at the zoom ceiling (`zoom + 1 > maxZoom`) a cluster
entry is recorded as the synthesized record of `_get_outage_info`, whose
cluster flag is true; its id is `representativePoint + "-" + startTime`
exactly when the entry carries no truthy vendor incident id, and is the
vendor incident id otherwise. -/
theorem maxZoom_cluster_record (env : KubraEnv)
    (recur : List String → Nat → Bool → GState → Option (GState × OMap))
    (q url : String) (e : Entry) (es : List Entry)
    (zoom : Nat) (cs : Bool) (st : GState) (acc : OMap)
    (hc : e.desc.cluster = true) (hz : zoom + 1 > env.maxZoom) :
    loopE env recur q url (e :: es) zoom cs st acc =
      loopE env recur q url es zoom cs st
        (omapInsert acc (getOutageInfo env e url).id (getOutageInfo env e url)) ∧
    (getOutageInfo env e url).cluster = true ∧
    (e.desc.incIdTruthy = false →
      (getOutageInfo env e url).id = e.pFirst ++ "-" ++ e.desc.startTime) ∧
    (∀ v, e.desc.incId = some v → v ≠ "" →
      (getOutageInfo env e url).id = v) := by
  refine ⟨?_, ?_, ?_, ?_⟩
  · simp [loopE, hc, hz]
  · simp [getOutageInfo, hc]
  · intro h
    simp [getOutageInfo, h]
  · intro v hv hne
    simp [getOutageInfo, Desc.incIdTruthy, hv, hne]

/-- Witness: `maxZoom_cluster_record` applied to the irreducible cluster of
`envClusterVendor` at zoom 7 (its ceiling). -/
theorem maxZoom_cluster_record_witness :
    loopE envClusterVendor (fetchData envClusterVendor 1) "Q"
        "d/public/L/Q.json" [entryClusterVendor] 7 false ⟨[], []⟩ [] =
      loopE envClusterVendor (fetchData envClusterVendor 1) "Q"
        "d/public/L/Q.json" [] 7 false ⟨[], []⟩
        (omapInsert []
          (getOutageInfo envClusterVendor entryClusterVendor
            "d/public/L/Q.json").id
          (getOutageInfo envClusterVendor entryClusterVendor
            "d/public/L/Q.json")) ∧
    (getOutageInfo envClusterVendor entryClusterVendor
      "d/public/L/Q.json").cluster = true ∧
    (entryClusterVendor.desc.incIdTruthy = false →
      (getOutageInfo envClusterVendor entryClusterVendor
        "d/public/L/Q.json").id =
        entryClusterVendor.pFirst ++ "-" ++ entryClusterVendor.desc.startTime) ∧
    (∀ v, entryClusterVendor.desc.incId = some v → v ≠ "" →
      (getOutageInfo envClusterVendor entryClusterVendor
        "d/public/L/Q.json").id = v) :=
  maxZoom_cluster_record envClusterVendor (fetchData envClusterVendor 1) "Q"
    "d/public/L/Q.json" entryClusterVendor [] 7 false ⟨[], []⟩ []
    (by decide) (by decide)

/-- A write that already carries a sha never reaches the retry branch: it
sends exactly one more PUT. -/
theorem writeStep_some_log (env : WriteEnv) (store : Store) (s : String)
    (log : List (Option String))
    (k : String → List (Option String) → WriteRes × List (Option String)) :
    (writeStep env store (some s) log k).2 = log ++ [some s] := by
  simp only [writeStep]
  split
  · split <;> rfl
  · split
    · rename_i hc
      exact Option.noConfusion hc.1
    · split <;> rfl

/-- One write body sends one PUT plus whatever its retry continuation
sends. -/
theorem writeStep_log_length (env : WriteEnv) (store : Store)
    (sha : Option String) (log : List (Option String))
    (k : String → List (Option String) → WriteRes × List (Option String))
    (n : Nat) (hk : ∀ o l, ((k o l).2).length ≤ l.length + n) :
    ((writeStep env store sha log k).2).length ≤ log.length + 1 + n := by
  simp only [writeStep]
  split
  · split <;> simp
  · split
    · split
      · rename_i o oldSha heq
        calc ((k oldSha (log ++ [sha])).2).length
            ≤ (log ++ [sha]).length + n := hk _ _
          _ = log.length + 1 + n := by simp
      · simp
    · split <;> simp

/-- The PUT count of a bounded write never exceeds the bound. -/
theorem writeFuel_log_length (env : WriteEnv) (store : Store) :
    ∀ fuel sha log,
      ((writeFuel env store fuel sha log).2).length ≤ log.length + fuel := by
  intro fuel
  induction fuel with
  | zero =>
    intro sha log
    simp [writeFuel]
  | succ fuel ih =>
    intro sha log
    simp only [writeFuel]
    refine le_trans (writeStep_log_length env store sha log _ fuel
      (fun o l => ih (some o) l)) ?_
    omega

/-- C1: a write with no version token that the store rejects with a
422-mentioning-"sha" response re-reads the current sha and retries the full
write exactly once with that sha (PUT trace `[none, some s]`); if the
retried write is again rejected with a 422 it raises `UnknownError`; and no
write ever sends more than two PUTs. -/
theorem write_retry_once (env : WriteEnv) (store : Store) (c s : String)
    (h0s : (env.put none).status = 422)
    (h0m : hasSha (env.put none).message = true)
    (hr : env.readResult = Except.ok (c, s)) :
    (ghWrite env store none).2 = [none, some s] ∧
    ((env.put (some s)).status = 422 →
      (ghWrite env store none).1 =
        WriteRes.failure (GhError.unknown
          (toString (env.put (some s)).status ++ ":"
            ++ (env.put (some s)).body))) ∧
    ∀ (env' : WriteEnv) (store' : Store) (sha : Option String),
      ((ghWrite env' store' sha).2).length ≤ 2 := by
  have key : ghWrite env store none = writeFuel env store 1 (some s) [none] := by
    show writeStep env store none []
      (fun o l => writeFuel env store 1 (some o) l) = _
    simp [writeStep, h0s, h0m, hr]
  refine ⟨?_, ?_, ?_⟩
  · rw [key]
    show (writeStep env store (some s) [none]
      (fun o l => writeFuel env store 0 (some o) l)).2 = _
    rw [writeStep_some_log]
    rfl
  · intro h2s
    rw [key]
    show (writeStep env store (some s) [none]
      (fun o l => writeFuel env store 0 (some o) l)).1 = _
    simp [writeStep, h2s]
  · intro env' store' sha
    have := writeFuel_log_length env' store' 2 sha []
    simpa [ghWrite] using this

/-- Witness: `write_retry_once` on the concrete always-422 endpoint
`envRetry`. -/
theorem write_retry_once_witness :
    (ghWrite envRetry exStore none).2 = [none, some "S1"] ∧
    ((envRetry.put (some "S1")).status = 422 →
      (ghWrite envRetry exStore none).1 =
        WriteRes.failure (GhError.unknown
          (toString (envRetry.put (some "S1")).status ++ ":"
            ++ (envRetry.put (some "S1")).body))) ∧
    ∀ (env' : WriteEnv) (store' : Store) (sha : Option String),
      ((ghWrite env' store' sha).2).length ≤ 2 :=
  write_retry_once envRetry exStore "old-content" "S1"
    (by decide) (by decide) (by rfl)

/-- C5: `write_large` on a store whose branch head is commit `c0` with tree
`t0` performs the protocol steps — blob created with the content, new tree
built against the base tree with the single path replaced/added, ref moved
to the new commit, blob and commit shas returned — but the created commit's
parents list is `["t0"]`: the sha answered by the tree-listing endpoint
(the head commit's TREE sha, also used as `base_tree`), not the commit the
branch head points at (`c0`). -/
theorem writeLarge_parents_tree_sha :
    writeLarge exStore "main" "f.json" "data" "msg" =
      some (exStoreAfter, "sha0", "sha2") ∧
    exStoreAfter.blobs.lookup "sha0" = some "data" ∧
    exStoreAfter.trees.lookup "sha1" =
      some [("old.txt", "b0"), ("f.json", "sha0")] ∧
    exStoreAfter.commits.lookup "sha2" = some ⟨"sha1", ["t0"], "msg"⟩ ∧
    exStoreAfter.refs.lookup "main" = some "sha2" ∧
    exStore.refs.lookup "main" = some "c0" ∧
    (exStore.commits.lookup "c0").map GCommit.tree = some "t0" ∧
    ("t0" : String) ≠ "c0" := by
  refine ⟨by decide, by decide, by decide, by decide, by decide, by decide,
    by decide, by decide⟩

/-- C8: when the fetch strategy returns the `None` sentinel, or the fetched
snapshot is structurally equal to the loaded prior snapshot, the pass ends
with no `github.write` call: the remote document and the stored version
token are untouched. -/
theorem scrape_skips_write (D : Type) [DecidableEq D] (env : ScrapeEnv D)
    (st st1 : ScrState D)
    (hload : loadPrior env st = Except.ok st1)
    (h : env.fetchResult = none ∨
      ∃ d, env.fetchResult = some d ∧ st1.lastData = some d) :
    scrapeAndStore env st = Except.ok (st1, []) := by
  rcases h with h | ⟨d, hf, hd⟩
  · simp [scrapeAndStore, hload, h]
  · simp [scrapeAndStore, hload, hf, hd, snapshotEq]

/-- Witness: a pass of `envScrapeNone` (fetch returns `None`) performs no
write. -/
theorem scrape_skips_write_witness :
    scrapeAndStore envScrapeNone ⟨none, none⟩ =
      Except.ok (⟨some 7, some "S0"⟩, []) :=
  scrape_skips_write Nat envScrapeNone ⟨none, none⟩ ⟨some 7, some "S0"⟩
    (by rfl) (Or.inl rfl)

/-- In a list with pairwise-distinct keys, `[r for r in l if r[k] == id][0]`
recovers each member from its key. -/
theorem find?_keyOf_unique (k : String) :
    ∀ (l : List DRec) (r : DRec), (l.map (keyOf k)).Nodup → r ∈ l →
      l.find? (fun x => decide (keyOf k x = keyOf k r)) = some r := by
  intro l
  induction l with
  | nil =>
    intro r _ hr
    exact absurd hr (List.not_mem_nil r)
  | cons a tl ih =>
    intro r hnd hr
    rw [List.map_cons, List.nodup_cons] at hnd
    rcases List.mem_cons.1 hr with rfl | hr
    · exact List.find?_cons_of_pos _ (by simp)
    · have hne : keyOf k a ≠ keyOf k r := by
        intro hx
        exact hnd.1 (hx ▸ List.mem_map_of_mem (keyOf k) hr)
      rw [List.find?_cons_of_neg _ (by simp [hne]), ih r hnd.2 hr]

/-- Looking up, one by one, the ids filtered out of a nodup-keyed list
recovers exactly the filtered records, in order. -/
theorem filter_ids_firstWith (k : String) (p : JVal → Bool) :
    ∀ (l : List DRec), (l.map (keyOf k)).Nodup →
      ((l.map (keyOf k)).filter p).filterMap (firstWithKey k l) =
        l.filter (fun r => p (keyOf k r)) := by
  intro l
  induction l with
  | nil => simp
  | cons a tl ih =>
    intro hnd
    rw [List.map_cons, List.nodup_cons] at hnd
    have hcongr : ∀ i ∈ (tl.map (keyOf k)).filter p,
        firstWithKey k (a :: tl) i = firstWithKey k tl i := by
      intro i hi
      have hitl : i ∈ tl.map (keyOf k) := List.mem_of_mem_filter hi
      have hne : keyOf k a ≠ i := fun hx => hnd.1 (hx ▸ hitl)
      unfold firstWithKey
      rw [List.find?_cons_of_neg _ (by simp [hne])]
    have hfa : firstWithKey k (a :: tl) (keyOf k a) = some a := by
      unfold firstWithKey
      exact List.find?_cons_of_pos _ (by simp)
    by_cases hp : p (keyOf k a) = true
    · rw [List.map_cons, List.filter_cons_of_pos hp,
        List.filterMap_cons, hfa, List.filterMap_congr hcongr, ih hnd.2]
      simp [List.filter_cons, hp]
    · rw [List.map_cons, List.filter_cons_of_neg (by simpa using hp),
        List.filterMap_congr hcongr, ih hnd.2]
      simp [List.filter_cons, hp]

/-- Mapping the second component over a filterMap that pairs each kept
element with itself yields a sublist. -/
theorem filterMap_snd_sublist {α β : Type} (f : α → Option (β × α))
    (hf : ∀ a r, f a = some r → r.2 = a) :
    ∀ l : List α, ((l.filterMap f).map Prod.snd).Sublist l := by
  intro l
  induction l with
  | nil => simp
  | cons a tl ih =>
    cases hfa : f a with
    | none => simpa [hfa] using ih.cons a
    | some r =>
      have := hf a r hfa
      simp only [List.filterMap_cons, hfa, List.map_cons, this]
      exact ih.cons₂ a

/-- C6: for nodup-keyed record lists, the rendered `added` records are
exactly the new records whose key is absent from the old list, in new
order; the rendered `removed` records are exactly the old records whose key
is absent from the new list, in old order; and `changed_records` holds
exactly the `(old, new)` pairs that share a key but differ under key-sorted
serialization, walked in `new_records` order. -/
theorem update_message_diff (k : String) (old new : List DRec)
    (hOld : (old.map (keyOf k)).Nodup)
    (hNew : (new.map (keyOf k)).Nodup) :
    addedRecords k old new = addedSpec k old new ∧
    removedRecords k old new = removedSpec k old new ∧
    (∀ pr : DRec × DRec, pr ∈ changedRecords k old new ↔
      (pr.1 ∈ old ∧ pr.2 ∈ new ∧ keyOf k pr.1 = keyOf k pr.2 ∧
        sortByKey pr.1 ≠ sortByKey pr.2)) ∧
    ((changedRecords k old new).map Prod.snd).Sublist new := by
  refine ⟨?_, ?_, ?_, ?_⟩
  · exact filter_ids_firstWith k _ new hNew
  · exact filter_ids_firstWith k _ old hOld
  · intro pr
    constructor
    · intro hpr
      obtain ⟨nr, hnr, hf⟩ := List.mem_filterMap.1 hpr
      cases hfind : old.find? (fun r => decide (keyOf k r = keyOf k nr)) with
      | none =>
        rw [hfind] at hf
        exact Option.noConfusion hf
      | some orec =>
        simp only [hfind] at hf
        by_cases hde : dumpsEq orec nr = true
        · rw [if_pos hde] at hf
          exact Option.noConfusion hf
        · rw [if_neg hde] at hf
          injection hf with hf
          subst hf
          refine ⟨List.mem_of_find?_eq_some hfind, hnr, ?_, ?_⟩
          · show keyOf k orec = keyOf k nr
            have h5 := List.find?_some hfind
            simpa using h5
          · show sortByKey orec ≠ sortByKey nr
            intro hx
            exact hde (by simp [dumpsEq, hx])
    · rintro ⟨h1, h2, h3, h4⟩
      apply List.mem_filterMap.2
      refine ⟨pr.2, h2, ?_⟩
      have hfind : old.find? (fun r => decide (keyOf k r = keyOf k pr.2)) =
          some pr.1 := by
        rw [← h3]
        exact find?_keyOf_unique k old pr.1 hOld h1
      simp only [hfind]
      rw [if_neg (by simp [dumpsEq, h4])]
  · apply filterMap_snd_sublist
    intro a r hfa
    cases hfind : old.find? (fun x => decide (keyOf k x = keyOf k a)) with
    | none =>
      rw [hfind] at hfa
      exact Option.noConfusion hfa
    | some orec =>
      simp only [hfind] at hfa
      by_cases hde : dumpsEq orec a = true
      · rw [if_pos hde] at hfa
        exact Option.noConfusion hfa
      · rw [if_neg hde] at hfa
        injection hfa with h
        rw [← h]

/-- Witness: `update_message_diff` on the spec's §8 scenario
(`old = [{id:1,cause:wind}]`, `new = [{id:1,cause:ice},{id:2,cause:wind}]`). -/
theorem update_message_diff_witness :
    addedRecords "id" [recWind] [recIce, recNew] =
      addedSpec "id" [recWind] [recIce, recNew] ∧
    removedRecords "id" [recWind] [recIce, recNew] =
      removedSpec "id" [recWind] [recIce, recNew] ∧
    (∀ pr : DRec × DRec, pr ∈ changedRecords "id" [recWind] [recIce, recNew] ↔
      (pr.1 ∈ [recWind] ∧ pr.2 ∈ [recIce, recNew] ∧
        keyOf "id" pr.1 = keyOf "id" pr.2 ∧
        sortByKey pr.1 ≠ sortByKey pr.2)) ∧
    ((changedRecords "id" [recWind] [recIce, recNew]).map Prod.snd).Sublist
      [recIce, recNew] :=
  update_message_diff "id" [recWind] [recIce, recNew] (by decide) (by decide)

/-- A key that `lookup` misses heads no pair of the record. -/
theorem lookup_none_not_mem {kk : String} {v : JVal} :
    ∀ l : DRec, l.lookup kk = none → (kk, v) ∉ l := by
  intro l
  induction l with
  | nil => simp
  | cons a tl ih =>
    obtain ⟨k1, v1⟩ := a
    intro hl hm
    by_cases hk : kk = k1
    · subst hk
      simp [List.lookup] at hl
    · rcases List.mem_cons.1 hm with heq | hm
      · exact hk (congrArg Prod.fst heq)
      · refine ih ?_ hm
        have hbeq : (kk == k1) = false := by simp [hk]
        simpa [List.lookup, hbeq] using hl

/-- C7 counterexample: a field present only in the new record is never
rendered by `display_changes` — the old record `{a: 1}` against the new
record `{a: 1, b: 2}` yields an empty change list although field `b`
differs. -/
theorem displayChanges_misses_new_fields :
    changedFieldTriples [("a", JVal.n 1)] [("a", JVal.n 1), ("b", JVal.n 2)]
      = [] ∧
    List.lookup "b" [("a", JVal.n 1)] = none ∧
    List.lookup "b" [("a", JVal.n 1), ("b", JVal.n 2)] = some (JVal.n 2) ∧
    displayChanges [("a", JVal.n 1)] [("a", JVal.n 1), ("b", JVal.n 2)] = "" := by
  refine ⟨by decide, by decide, by decide, by decide⟩

/-- C7 (amended): the field-level change detail of a rendered pair lists
exactly the fields of the OLD record whose value differs from the new
record's value for that field (a missing field read as null), showing the
new value; fields present only in the new record are never reported. -/
theorem displayChanges_old_fields (old new : DRec) :
    (∀ kk pv nv, (kk, pv, nv) ∈ changedFieldTriples old new ↔
      ((kk, pv) ∈ old ∧ nv = (new.lookup kk).getD JVal.null ∧ pv ≠ nv)) ∧
    (∀ kk, old.lookup kk = none →
      ∀ pv nv, (kk, pv, nv) ∉ changedFieldTriples old new) := by
  have hiff : ∀ kk pv nv, (kk, pv, nv) ∈ changedFieldTriples old new ↔
      ((kk, pv) ∈ old ∧ nv = (new.lookup kk).getD JVal.null ∧ pv ≠ nv) := by
    intro kk pv nv
    constructor
    · intro h
      obtain ⟨p, hp, hf⟩ := List.mem_filterMap.1 h
      by_cases he : p.2 = (new.lookup p.1).getD JVal.null
      · rw [if_pos he] at hf
        exact Option.noConfusion hf
      · rw [if_neg he] at hf
        injection hf with h0
        injection h0 with h1 h23
        injection h23 with h2 h3
        subst h1
        subst h2
        subst h3
        exact ⟨hp, rfl, he⟩
    · rintro ⟨h1, h2, h3⟩
      subst h2
      apply List.mem_filterMap.2
      exact ⟨(kk, pv), h1, by rw [if_neg h3]⟩
  refine ⟨hiff, ?_⟩
  intro kk hlk pv nv hmem
  exact lookup_none_not_mem old hlk ((hiff kk pv nv).1 hmem).1

/-- Witness: `displayChanges_old_fields` evaluated on the records of the
C7 counterexample. -/
theorem displayChanges_old_fields_witness :
    (("a", JVal.n 1, JVal.n 1) ∈
        changedFieldTriples [("a", JVal.n 1)] [("a", JVal.n 1), ("b", JVal.n 2)] ↔
      (("a", JVal.n 1) ∈ ([("a", JVal.n 1)] : DRec) ∧
        JVal.n 1 = (([("a", JVal.n 1), ("b", JVal.n 2)] : DRec).lookup "a").getD
          JVal.null ∧ JVal.n 1 ≠ JVal.n 1)) ∧
    (∀ pv nv, ("b", pv, nv) ∉
      changedFieldTriples [("a", JVal.n 1)] [("a", JVal.n 1), ("b", JVal.n 2)]) :=
  ⟨(displayChanges_old_fields [("a", JVal.n 1)]
      [("a", JVal.n 1), ("b", JVal.n 2)]).1 "a" (JVal.n 1) (JVal.n 1),
   fun pv nv => (displayChanges_old_fields [("a", JVal.n 1)]
      [("a", JVal.n 1), ("b", JVal.n 2)]).2 "b" (by decide) pv nv⟩

/-- C10: with change rendering enabled, a non-empty changed set and no
removed records, the rendered changed block's header line interpolates
`len(removed_ids)` — it reads `"0 <plural> changed:"` — while the summary
carries the true changed count. -/
theorem changed_header_counts_removed (cfg : DeltaCfg) (old new : List DRec)
    (hshow : cfg.showChanges = true)
    (hrem : removedIds cfg.recordKey old new = [])
    (hch : changedRecords cfg.recordKey old new ≠ []) :
    (changedBlock cfg (removedIds cfg.recordKey old new).length
        (changedRecords cfg.recordKey old new)).head? =
      some (toString (removedIds cfg.recordKey old new).length ++ " "
        ++ nounForCount cfg (removedIds cfg.recordKey old new).length
        ++ " changed:") ∧
    messageBlocks cfg old new =
      (if addedIds cfg.recordKey old new ≠ [] then [addedBlock cfg old new]
       else []) ++
      [("0 " ++ cfg.nounPlural ++ " changed:")
        :: (changedRecords cfg.recordKey old new).map
          (fun pq => displayChanges pq.1 pq.2)] ∧
    (toString (changedRecords cfg.recordKey old new).length ++ " "
      ++ nounForCount cfg (changedRecords cfg.recordKey old new).length
      ++ " changed") ∈ summaryParts cfg old new := by
  refine ⟨rfl, ?_, ?_⟩
  · have hhead : toString (0 : Nat) ++ " " ++ nounForCount cfg 0
        ++ " changed:" = "0 " ++ cfg.nounPlural ++ " changed:" := by
      have h0 : nounForCount cfg 0 = cfg.nounPlural := by
        simp [nounForCount]
      rw [h0]
      rfl
    simp only [messageBlocks, hrem, hshow, changedBlock]
    simp [hch, hhead]
  · simp [summaryParts, hrem, hch]

/-- Witness: `changed_header_counts_removed` on one changed outage and no
removed outages: the block header reads `"0 outages changed:"`, the summary
says `"1 outage changed"`. -/
theorem changed_header_counts_removed_witness :
    (changedBlock cfgOutages (removedIds cfgOutages.recordKey [recWind] [recIce]).length
        (changedRecords cfgOutages.recordKey [recWind] [recIce])).head? =
      some (toString (removedIds cfgOutages.recordKey [recWind] [recIce]).length ++ " "
        ++ nounForCount cfgOutages
            (removedIds cfgOutages.recordKey [recWind] [recIce]).length
        ++ " changed:") ∧
    messageBlocks cfgOutages [recWind] [recIce] =
      (if addedIds cfgOutages.recordKey [recWind] [recIce] ≠ [] then
        [addedBlock cfgOutages [recWind] [recIce]]
       else []) ++
      [("0 " ++ cfgOutages.nounPlural ++ " changed:")
        :: (changedRecords cfgOutages.recordKey [recWind] [recIce]).map
          (fun pq => displayChanges pq.1 pq.2)] ∧
    (toString (changedRecords cfgOutages.recordKey [recWind] [recIce]).length ++ " "
      ++ nounForCount cfgOutages
          (changedRecords cfgOutages.recordKey [recWind] [recIce]).length
      ++ " changed") ∈ summaryParts cfgOutages [recWind] [recIce] :=
  changed_header_counts_removed cfgOutages [recWind] [recIce]
    (by decide) (by decide) (by decide)
